import Mathlib

/-!
Verification of the SmartBookmarkApp client-side state reconciler
(`src/app/dashboard/page.tsx`).

The dashboard component keeps an in-memory list of bookmark records and
merges three asynchronous sources: the initial fetch, optimistic fallback
timers scheduled after successful store mutations, and remote
change-notification events.  Everything the claims touch lives in the
`Dashboard` component of `src/app/dashboard/page.tsx`; the handlers are
embedded here as pure functions on an explicit state record.
-/

namespace SmartBookmark

/-- A bookmark row as stored by the backend (`bookmarks` table):
identifier, owner identity, title, URL, creation timestamp. -/
structure Bookmark where
  id : String
  user_id : String
  title : String
  url : String
  created_at : Nat
deriving Repr, DecidableEq

/-- The realtime INSERT handler's `setBookmarks` updater
(`page.tsx` lines 78-82): prepend the payload unless an entry with the
same identifier is already present. -/
def realtimeInsertUpdate (payload : Bookmark) (current : List Bookmark) : List Bookmark :=
  if current.any (fun b => b.id == payload.id) then current
  else payload :: current

/-- The full realtime INSERT handler (`page.tsx` lines 76-84): the payload
owner is checked against the current user id before the updater runs. -/
def realtimeInsertHandler (userId : String) (payload : Bookmark)
    (current : List Bookmark) : List Bookmark :=
  if payload.user_id == userId then realtimeInsertUpdate payload current
  else current

/-- The realtime DELETE handler's updater (`page.tsx` lines 94-100):
filter out the entry whose identifier matches `payload.old.id`.
No owner check is performed on the payload. -/
def realtimeDeleteHandler (oldId : String) (current : List Bookmark) : List Bookmark :=
  current.filter (fun b => b.id != oldId)

/-- The insert fallback timer body scheduled by `handleSubmit`
(`page.tsx` lines 157-164): if the insert returned a row and no entry
with its identifier is present, prepend it. -/
def insertFallbackUpdate (data : Option Bookmark) (current : List Bookmark) : List Bookmark :=
  match data with
  | some r => if current.any (fun b => b.id == r.id) then current else r :: current
  | none => current

/-- The delete fallback timer body scheduled by `handleDelete`
(`page.tsx` lines 192-200): if an entry with the identifier is still
present, filter it out; otherwise leave the list unchanged. -/
def deleteFallbackUpdate (i : String) (current : List Bookmark) : List Bookmark :=
  if current.any (fun b => b.id == i) then current.filter (fun b => b.id != i)
  else current

/-- Identifier multiset of the local list. -/
def ids (l : List Bookmark) : List String := l.map (fun b => b.id)

/-- `i` occurs among the identifiers of `l`. -/
def memId (l : List Bookmark) (i : String) : Bool := l.any (fun b => b.id == i)

theorem memId_iff (l : List Bookmark) (i : String) :
    memId l i = true ↔ ∃ b ∈ l, b.id = i := by
  simp [memId, List.any_eq_true]

/-- If no entry of `l` has identifier `i`, then `i` is not in `ids l`. -/
theorem not_mem_ids_of_not_memId {l : List Bookmark} {i : String}
    (h : memId l i = false) : i ∉ ids l := by
  intro hmem
  simp only [ids, List.mem_map] at hmem
  obtain ⟨b, hb, hbi⟩ := hmem
  have : memId l i = true := (memId_iff l i).mpr ⟨b, hb, hbi⟩
  rw [h] at this
  exact absurd this (by decide)

theorem realtimeInsertUpdate_nodup {payload : Bookmark} {l : List Bookmark}
    (h : (ids l).Nodup) : (ids (realtimeInsertUpdate payload l)).Nodup := by
  unfold realtimeInsertUpdate
  by_cases hc : l.any (fun b => b.id == payload.id) = true
  · simp [hc, h]
  · have hc' : memId l payload.id = false := by
      simpa [memId] using hc
    simp only [hc, if_false, Bool.false_eq_true]
    simp only [ids, List.map_cons, List.nodup_cons]
    exact ⟨not_mem_ids_of_not_memId hc', h⟩

theorem realtimeInsertHandler_nodup (u : String) (payload : Bookmark) {l : List Bookmark}
    (h : (ids l).Nodup) : (ids (realtimeInsertHandler u payload l)).Nodup := by
  unfold realtimeInsertHandler
  by_cases hc : payload.user_id == u
  · simpa [hc] using realtimeInsertUpdate_nodup h
  · simpa [hc] using h

theorem insertFallbackUpdate_nodup (d : Option Bookmark) {l : List Bookmark}
    (h : (ids l).Nodup) : (ids (insertFallbackUpdate d l)).Nodup := by
  unfold insertFallbackUpdate
  match d with
  | none => exact h
  | some r =>
    by_cases hc : l.any (fun b => b.id == r.id) = true
    · simp [hc, h]
    · have hc' : memId l r.id = false := by simpa [memId] using hc
      simp only [hc, if_false, Bool.false_eq_true]
      simp only [ids, List.map_cons, List.nodup_cons]
      exact ⟨not_mem_ids_of_not_memId hc', h⟩

/-- One step of the interleaving considered by claim C1: either the insert
fallback timer for record `r` fires, or the remote insert notification for
`r` is delivered to a user `u`. -/
inductive InsEvent where
  | fallback
  | notif
deriving Repr, DecidableEq

def applyInsEvent (u : String) (r : Bookmark) (l : List Bookmark) : InsEvent → List Bookmark
  | .fallback => insertFallbackUpdate (some r) l
  | .notif => realtimeInsertHandler u r l

def runInsEvents (u : String) (r : Bookmark) (evs : List InsEvent)
    (l : List Bookmark) : List Bookmark :=
  evs.foldl (fun acc e => applyInsEvent u r acc e) l

/-- C1.  For every local bookmark state whose identifiers are duplicate-free
and every interleaving of the optimistic insert fallback and the remote
insert notification for the same record, the resulting state contains no two
entries with the same identifier: both paths check for an existing entry
with that identifier before prepending. -/
theorem c1_no_duplicate_ids (u : String) (r : Bookmark) (evs : List InsEvent)
    (l : List Bookmark) (h : (ids l).Nodup) :
    (ids (runInsEvents u r evs l)).Nodup := by
  induction evs generalizing l with
  | nil => simpa [runInsEvents] using h
  | cons e rest ih =>
    have hstep : (ids (applyInsEvent u r l e)).Nodup := by
      cases e with
      | fallback => exact insertFallbackUpdate_nodup (some r) h
      | notif => exact realtimeInsertHandler_nodup u r h
    simpa [runInsEvents, List.foldl_cons] using ih (applyInsEvent u r l e) hstep

/-- Witness for C1: the record `⟨"b1","u1",...⟩` processed through the
fallback followed by the notification starting from the empty state yields a
duplicate-free identifier list. -/
theorem c1_no_duplicate_ids_witness :
    (ids (runInsEvents "u1" ⟨"b1", "u1", "t", "https://a", 1⟩
      [InsEvent.fallback, InsEvent.notif] [])).Nodup :=
  c1_no_duplicate_ids "u1" ⟨"b1", "u1", "t", "https://a", 1⟩
    [InsEvent.fallback, InsEvent.notif] [] (by decide)

/-- The delete fallback's conditional is equivalent to an unconditional
filter: when no matching entry is present the filter keeps everything. -/
theorem deleteFallbackUpdate_eq_filter (i : String) (l : List Bookmark) :
    deleteFallbackUpdate i l = l.filter (fun b => b.id != i) := by
  unfold deleteFallbackUpdate
  by_cases hc : l.any (fun b => b.id == i) = true
  · simp [hc]
  · simp only [hc, if_false, Bool.false_eq_true]
    symm
    rw [List.filter_eq_self]
    intro b hb
    have hbi : (b.id == i) = false := by
      cases h2 : (b.id == i) with
      | false => rfl
      | true => exact absurd (List.any_eq_true.mpr ⟨b, hb, h2⟩) hc
    simp [bne, hbi]

/-- C3.  Applying the remote delete notification and the delete fallback for
the same identifier, in either order, yields the same state as applying
either alone; the result contains no entry with that identifier (removal is
idempotent and never reintroduces the record). -/
theorem c3_delete_idempotent_commutes (i : String) (l : List Bookmark) :
    realtimeDeleteHandler i (deleteFallbackUpdate i l) = deleteFallbackUpdate i l
    ∧ deleteFallbackUpdate i (realtimeDeleteHandler i l) = realtimeDeleteHandler i l
    ∧ realtimeDeleteHandler i l = deleteFallbackUpdate i l
    ∧ memId (realtimeDeleteHandler i (deleteFallbackUpdate i l)) i = false := by
  have hfb := deleteFallbackUpdate_eq_filter i l
  have hfilter : ∀ m : List Bookmark,
      (m.filter (fun b => b.id != i)).filter (fun b => b.id != i)
        = m.filter (fun b => b.id != i) := by
    intro m
    rw [List.filter_eq_self]
    intro b hb
    exact (List.mem_filter.mp hb).2
  have hmem : memId (l.filter (fun b => b.id != i)) i = false := by
    rw [memId]
    by_cases h : (l.filter (fun b => b.id != i)).any (fun b => b.id == i) = true
    · exfalso
      rcases List.any_eq_true.mp h with ⟨b, hb, hbi⟩
      have h2 := (List.mem_filter.mp hb).2
      rw [bne] at h2
      rw [hbi] at h2
      exact absurd h2 (by decide)
    · exact Bool.eq_false_iff.mpr h
  refine ⟨?_, ?_, ?_, ?_⟩
  · rw [hfb, realtimeDeleteHandler, hfilter]
  · rw [realtimeDeleteHandler, deleteFallbackUpdate_eq_filter, hfilter]
  · rw [hfb, realtimeDeleteHandler]
  · rw [hfb, realtimeDeleteHandler, hfilter]
    exact hmem

/-- The `Dashboard` component's state hooks (`page.tsx` lines 10-18), with
`user` reduced to the identity's id string (the only field the handlers
read). -/
structure DashState where
  user : Option String
  loading : Bool
  title : String
  url : String
  submitting : Bool
  bookmarks : List Bookmark
  deleting : Option String
  fetchingBookmarks : Bool
  error : Option String
deriving Repr, DecidableEq

/-- The initial state of the component's hooks. -/
def initialDashState : DashState :=
  { user := none, loading := true, title := "", url := "", submitting := false,
    bookmarks := [], deleting := none, fetchingBookmarks := false, error := none }

/-- A fallback timer scheduled by `setTimeout` in `handleSubmit` or
`handleDelete`; it carries the data its closure captured. -/
inductive PendingTimer where
  | insertFb (d : Option Bookmark)
  | deleteFb (i : String)
deriving Repr, DecidableEq

/-- Ordering used by the initial load query
(`.order('created_at', { ascending: false })`). -/
def byCreatedDesc (a b : Bookmark) : Prop := b.created_at ≤ a.created_at

instance : DecidableRel byCreatedDesc := fun a b => Nat.decLe b.created_at a.created_at

instance : IsTotal Bookmark byCreatedDesc :=
  ⟨fun a b => Nat.le_total b.created_at a.created_at⟩

instance : IsTrans Bookmark byCreatedDesc :=
  ⟨fun _ _ _ hab hbc => Nat.le_trans hbc hab⟩

/-- The store's answer to the initial load query
(`select * where user_id = uid order by created_at desc`): rows owned by
`uid`, sorted by creation timestamp descending. -/
def storeSelect (uid : String) (store : List Bookmark) : List Bookmark :=
  List.insertionSort byCreatedDesc (store.filter (fun r => r.user_id == uid))

/-- `fetchBookmarks` (`page.tsx` lines 20-41): guard on empty user id, then
set the fetching flag, clear the error, and either surface the fetch error
or replace the whole list with the fetched data. -/
def fetchBookmarks (uid : String) (result : Except String (List Bookmark))
    (s : DashState) : DashState :=
  if uid = "" then s
  else
    let s1 := { s with fetchingBookmarks := true, error := none }
    match result with
    | .error msg =>
        { s1 with error := some ("Failed to load bookmarks: " ++ msg),
                  fetchingBookmarks := false }
    | .ok data => { s1 with bookmarks := data, fetchingBookmarks := false }

/-- `handleSubmit` (`page.tsx` lines 128-168), with the awaited store insert
modelled by the `storeResult` parameter (the created row, as `data[0]`).
Returns the new state, whether a store insert call was issued, and the
fallback timers scheduled. -/
def handleSubmit (s : DashState) (storeResult : Except String (Option Bookmark)) :
    DashState × Bool × List PendingTimer :=
  match s.user with
  | none => ({ s with error := some "You must be logged in to add bookmarks" }, false, [])
  | some _ =>
    if s.title = "" ∨ s.url = "" then (s, false, [])
    else
      let s1 := { s with submitting := true, error := none }
      match storeResult with
      | .error msg =>
          ({ s1 with error := some ("Failed to add bookmark: " ++ msg),
                     submitting := false }, true, [])
      | .ok d =>
          ({ s1 with title := "", url := "", submitting := false }, true,
            [PendingTimer.insertFb d])

/-- The delete request issued by `handleDelete`
(`.delete().eq('id', id).eq('user_id', user.id)`, lines 181-185): it is
scoped by both the identifier and the current identity. -/
structure DeleteRequest where
  filterId : String
  filterUser : String
deriving Repr, DecidableEq

/-- Effect of a delete request on the store: only rows matching both
filters are removed. -/
def applyDeleteRequest (rq : DeleteRequest) (store : List Bookmark) : List Bookmark :=
  store.filter (fun r => !(r.id == rq.filterId && r.user_id == rq.filterUser))

/-- `handleDelete` (`page.tsx` lines 170-204), with the awaited store delete
modelled by `storeResult`.  Returns the new state, the delete request issued
to the store (`none` when the guards returned early), and the fallback
timers scheduled. -/
def handleDelete (s : DashState) (i : String) (storeResult : Except String Unit) :
    DashState × Option DeleteRequest × List PendingTimer :=
  match s.user with
  | none => ({ s with error := some "You must be logged in to delete bookmarks" }, none, [])
  | some u =>
    match s.deleting with
    | some _ => (s, none, [])
    | none =>
      let s1 := { s with deleting := some i, error := none }
      match storeResult with
      | .error msg =>
          ({ s1 with error := some ("Failed to delete bookmark: " ++ msg),
                     deleting := none }, some ⟨i, u⟩, [])
      | .ok _ => ({ s1 with deleting := none }, some ⟨i, u⟩, [PendingTimer.deleteFb i])

/-- A rendered dashboard state on which the user can interact: the form is
shown, a user is present, and no delete is marked in flight. -/
def sampleState : DashState :=
  { user := some "u1", loading := false, title := "T", url := "https://a.example",
    submitting := false, bookmarks := [], deleting := none,
    fetchingBookmarks := false, error := none }

/-- C5.  When the store returns an error on a create or a delete, the
operation surfaces a user-visible error message, leaves the local bookmark
sequence exactly as it was, and schedules no fallback timer. -/
theorem c5_store_error_no_mutation (s : DashState) (u m i : String)
    (hu : s.user = some u) (ht : s.title ≠ "") (hurl : s.url ≠ "")
    (hd : s.deleting = none) :
    ((handleSubmit s (.error m)).1.bookmarks = s.bookmarks
      ∧ (handleSubmit s (.error m)).1.error = some ("Failed to add bookmark: " ++ m)
      ∧ (handleSubmit s (.error m)).2.2 = [])
    ∧ ((handleDelete s i (.error m)).1.bookmarks = s.bookmarks
      ∧ (handleDelete s i (.error m)).1.error = some ("Failed to delete bookmark: " ++ m)
      ∧ (handleDelete s i (.error m)).2.2 = []) := by
  refine ⟨⟨?_, ?_, ?_⟩, ⟨?_, ?_, ?_⟩⟩ <;>
    simp [handleSubmit, handleDelete, hu, ht, hurl, hd]

/-- Witness for C5 at a concrete rendered state and error message. -/
theorem c5_store_error_no_mutation_witness :
    ((handleSubmit sampleState (.error "boom")).1.bookmarks = sampleState.bookmarks
      ∧ (handleSubmit sampleState (.error "boom")).1.error
          = some ("Failed to add bookmark: " ++ "boom")
      ∧ (handleSubmit sampleState (.error "boom")).2.2 = [])
    ∧ ((handleDelete sampleState "b1" (.error "boom")).1.bookmarks = sampleState.bookmarks
      ∧ (handleDelete sampleState "b1" (.error "boom")).1.error
          = some ("Failed to delete bookmark: " ++ "boom")
      ∧ (handleDelete sampleState "b1" (.error "boom")).2.2 = []) :=
  c5_store_error_no_mutation sampleState "u1" "boom" "b1" rfl (by decide) (by decide) rfl

/-- C6.  On the initial load, a failed fetch surfaces an error and leaves
the (initially empty) local sequence empty, while a successful fetch
replaces the entire local sequence with the selected rows ordered by
creation timestamp descending. -/
theorem c6_initial_load (uid m : String) (s : DashState) (store : List Bookmark)
    (hne : uid ≠ "") (hempty : s.bookmarks = []) :
    ((fetchBookmarks uid (.error m) s).bookmarks = []
      ∧ (fetchBookmarks uid (.error m) s).error = some ("Failed to load bookmarks: " ++ m))
    ∧ ((fetchBookmarks uid (.ok (storeSelect uid store)) s).bookmarks = storeSelect uid store
      ∧ List.Sorted byCreatedDesc (storeSelect uid store)) := by
  refine ⟨⟨?_, ?_⟩, ⟨?_, ?_⟩⟩
  · simp [fetchBookmarks, hne, hempty]
  · simp [fetchBookmarks, hne]
  · simp [fetchBookmarks, hne]
  · exact List.sorted_insertionSort byCreatedDesc _

/-- Witness for C6: the spec's own example store `[{id:"1", owner u1}]`. -/
theorem c6_initial_load_witness :
    ((fetchBookmarks "u1" (.error "down") initialDashState).bookmarks = []
      ∧ (fetchBookmarks "u1" (.error "down") initialDashState).error
          = some ("Failed to load bookmarks: " ++ "down"))
    ∧ ((fetchBookmarks "u1"
          (.ok (storeSelect "u1" [⟨"1", "u1", "A", "https://a.example", 5⟩]))
          initialDashState).bookmarks
        = storeSelect "u1" [⟨"1", "u1", "A", "https://a.example", 5⟩]
      ∧ List.Sorted byCreatedDesc
          (storeSelect "u1" [⟨"1", "u1", "A", "https://a.example", 5⟩])) :=
  c6_initial_load "u1" "down" initialDashState
    [⟨"1", "u1", "A", "https://a.example", 5⟩] (by decide) rfl

/-- C7.  Submitting the create form with an empty title or an empty URL
issues no store insert call and leaves the state unchanged (whenever the
form is rendered, a user is present). -/
theorem c7_empty_fields_no_insert (s : DashState) (u : String)
    (res : Except String (Option Bookmark))
    (hu : s.user = some u) (h : s.title = "" ∨ s.url = "") :
    handleSubmit s res = (s, false, []) := by
  simp only [handleSubmit, hu]
  rw [if_pos h]

/-- Witness for C7 at a rendered state with an empty title. -/
theorem c7_empty_fields_no_insert_witness :
    handleSubmit { sampleState with title := "" } (.ok none)
      = ({ sampleState with title := "" }, false, []) :=
  c7_empty_fields_no_insert { sampleState with title := "" } "u1" (.ok none)
    rfl (Or.inl rfl)

/-- C9.  Every delete request issued to the store is scoped by both the
target identifier and the current identity, and applying such a request to
any store never removes a record owned by a different identity. -/
theorem c9_delete_scoped (s : DashState) (u i : String) (res : Except String Unit)
    (hu : s.user = some u) (hd : s.deleting = none) :
    (handleDelete s i res).2.1 = some ⟨i, u⟩
    ∧ ∀ (store : List Bookmark) (r : Bookmark), r ∈ store → r.user_id ≠ u →
        r ∈ applyDeleteRequest ⟨i, u⟩ store := by
  constructor
  · cases res <;> simp [handleDelete, hu, hd]
  · intro store r hr hne
    refine List.mem_filter.mpr ⟨hr, ?_⟩
    have : (r.user_id == u) = false := beq_eq_false_iff_ne.mpr hne
    simp [this]

/-- Witness for C9: a delete request for `b1` by `u1`, applied to a store
holding a record owned by `u2`. -/
theorem c9_delete_scoped_witness :
    (handleDelete sampleState "b1" (.ok ())).2.1 = some ⟨"b1", "u1"⟩
    ∧ (⟨"b1", "u2", "t", "x", 1⟩ : Bookmark)
        ∈ applyDeleteRequest ⟨"b1", "u1"⟩ [⟨"b1", "u2", "t", "x", 1⟩] :=
  ⟨(c9_delete_scoped sampleState "u1" "b1" (.ok ()) rfl rfl).1,
   (c9_delete_scoped sampleState "u1" "b1" (.ok ()) rfl rfl).2
     [⟨"b1", "u2", "t", "x", 1⟩] ⟨"b1", "u2", "t", "x", 1⟩
     (List.mem_singleton.mpr rfl) (by decide)⟩

/-- C10.  The remote insert handler checks the payload owner against the
current identity and leaves state unchanged when they differ, whereas the
remote delete handler removes by identifier alone, with no owner check. -/
theorem c10_owner_check_asymmetry (u pid : String) (payload : Bookmark)
    (current : List Bookmark) :
    (payload.user_id ≠ u → realtimeInsertHandler u payload current = current)
    ∧ realtimeDeleteHandler pid current = current.filter (fun b => b.id != pid) := by
  constructor
  · intro h
    have : (payload.user_id == u) = false := beq_eq_false_iff_ne.mpr h
    simp [realtimeInsertHandler, this]
  · rfl

/-- Witness for C10: an insert payload owned by `u2` delivered to `u1` is
ignored; a delete payload removes by identifier. -/
theorem c10_owner_check_asymmetry_witness :
    realtimeInsertHandler "u1" ⟨"b9", "u2", "t", "x", 1⟩ [] = []
    ∧ realtimeDeleteHandler "b9" [] = List.filter (fun b => b.id != "b9") [] :=
  ⟨(c10_owner_check_asymmetry "u1" "b9" ⟨"b9", "u2", "t", "x", 1⟩ []).1 (by decide),
   (c10_owner_check_asymmetry "u1" "b9" ⟨"b9", "u2", "t", "x", 1⟩ []).2⟩

/-- Firing one of the scheduled fallback timers. -/
def fireTimer (l : List Bookmark) : PendingTimer → List Bookmark
  | .insertFb d => insertFallbackUpdate d l
  | .deleteFb i => deleteFallbackUpdate i l

/-- One event-loop step of the `Dashboard` component.  Each constructor is
one of the component's handlers (or the synchronous prefix / resumption of
an `await`-split handler, for `handleDelete`, whose in-flight window is the
subject of claim C4). -/
inductive Step : DashState → DashState → Prop where
  | authLoaded (s : DashState) (u : String) :
      s.user = none → Step s { s with user := some u, loading := false }
  | fetchDone (s : DashState) (uid : String) (result : Except String (List Bookmark)) :
      Step s (fetchBookmarks uid result s)
  | setTitleField (s : DashState) (t : String) : Step s { s with title := t }
  | setUrlField (s : DashState) (t : String) : Step s { s with url := t }
  | realtimeIns (s : DashState) (u : String) (payload : Bookmark) :
      s.user = some u →
      Step s { s with bookmarks := realtimeInsertHandler u payload s.bookmarks }
  | realtimeDel (s : DashState) (oldId : String) :
      Step s { s with bookmarks := realtimeDeleteHandler oldId s.bookmarks }
  | submitResult (s : DashState) (r : Except String (Option Bookmark)) :
      Step s (handleSubmit s r).1
  | deleteNoUser (s : DashState) :
      s.user = none →
      Step s { s with error := some "You must be logged in to delete bookmarks" }
  | deleteStart (s : DashState) (u i : String) :
      s.user = some u → s.deleting = none →
      Step s { s with deleting := some i, error := none }
  | deleteFinishOk (s : DashState) :
      Step s { s with deleting := none }
  | deleteFinishErr (s : DashState) (m : String) :
      Step s { s with deleting := none,
                      error := some ("Failed to delete bookmark: " ++ m) }
  | timerFires (s : DashState) (t : PendingTimer) :
      Step s { s with bookmarks := fireTimer s.bookmarks t }
  | dismissError (s : DashState) : Step s { s with error := none }

/-- States reachable from the freshly mounted component. -/
inductive Reachable : DashState → Prop where
  | init : Reachable initialDashState
  | step {s s' : DashState} : Reachable s → Step s s' → Reachable s'

theorem fetchBookmarks_user (uid : String) (r : Except String (List Bookmark))
    (s : DashState) : (fetchBookmarks uid r s).user = s.user := by
  unfold fetchBookmarks
  split
  · rfl
  · cases r <;> rfl

theorem fetchBookmarks_deleting (uid : String) (r : Except String (List Bookmark))
    (s : DashState) : (fetchBookmarks uid r s).deleting = s.deleting := by
  unfold fetchBookmarks
  split
  · rfl
  · cases r <;> rfl

theorem handleSubmit_user (s : DashState) (r : Except String (Option Bookmark)) :
    (handleSubmit s r).1.user = s.user := by
  unfold handleSubmit
  cases hu : s.user with
  | none => simp
  | some u =>
    by_cases ht : s.title = "" ∨ s.url = ""
    · simp [ht, hu]
    · cases r <;> simp [ht, hu]

theorem handleSubmit_deleting (s : DashState) (r : Except String (Option Bookmark)) :
    (handleSubmit s r).1.deleting = s.deleting := by
  unfold handleSubmit
  cases hu : s.user with
  | none => simp
  | some u =>
    by_cases ht : s.title = "" ∨ s.url = ""
    · simp [ht, hu]
    · cases r <;> simp [ht, hu]

/-- In every reachable state, a set `deleting` marker implies a user is
present: the marker is only set by the in-flight window of `handleDelete`,
which requires a user, and `user` is never reset to `none`. -/
theorem reachable_deleting_imp_user {s : DashState} (h : Reachable s) :
    s.deleting ≠ none → s.user ≠ none := by
  induction h with
  | init => intro hd; exact absurd rfl hd
  | step _ hstep ih =>
    cases hstep with
    | authLoaded u hu => intro _; simp
    | fetchDone uid result =>
      intro hd
      rw [fetchBookmarks_user]
      exact ih (by rwa [fetchBookmarks_deleting] at hd)
    | setTitleField t => exact ih
    | setUrlField t => exact ih
    | realtimeIns u payload hu => exact ih
    | realtimeDel oldId => exact ih
    | submitResult r =>
      intro hd
      rw [handleSubmit_user]
      exact ih (by rwa [handleSubmit_deleting] at hd)
    | deleteNoUser hu => exact ih
    | deleteStart u i hu hd => intro _; simp [hu]
    | deleteFinishOk => intro hd; exact absurd rfl hd
    | deleteFinishErr m => intro hd; exact absurd rfl hd
    | timerFires t => exact ih
    | dismissError => exact ih

/-- C4.  In every reachable state in which a delete is in flight (the
`deleting` marker is set), a delete request for any identifier is ignored:
`handleDelete` issues no store call, schedules no timer, and returns the
state unchanged. -/
theorem c4_single_inflight_delete (s : DashState) (d i : String)
    (r : Except String Unit) (hreach : Reachable s) (hd : s.deleting = some d) :
    handleDelete s i r = (s, none, []) := by
  have hu : s.user ≠ none :=
    reachable_deleting_imp_user hreach (by rw [hd]; exact fun h => Option.noConfusion h)
  obtain ⟨u, hu'⟩ := Option.ne_none_iff_exists'.mp hu
  simp [handleDelete, hu', hd]

/-- A concrete reachable state with a delete in flight: mount, load the
user, then enter `handleDelete`'s in-flight window for `b1`. -/
def reachedDeleting : DashState :=
  { { initialDashState with user := some "u1", loading := false } with
      deleting := some "b1", error := none }

/-- Witness for C4: in the concrete in-flight state, a delete request for
`b2` is ignored entirely. -/
theorem c4_single_inflight_delete_witness :
    handleDelete reachedDeleting "b2" (.ok ()) = (reachedDeleting, none, []) :=
  c4_single_inflight_delete reachedDeleting "b1" "b2" (.ok ())
    (Reachable.step
      (Reachable.step Reachable.init (Step.authLoaded initialDashState "u1" rfl))
      (Step.deleteStart { initialDashState with user := some "u1", loading := false }
        "u1" "b1" rfl rfl))
    rfl

/-- The runtime environment around the component that claim C8 is about:
the bookmark state, whether the realtime channel subscription is active,
and the `setTimeout` fallback timers still pending. -/
structure Runtime where
  dash : List Bookmark
  subscribed : Bool
  pending : List PendingTimer
deriving Repr, DecidableEq

/-- The unmount cleanup of the subscription effect (`page.tsx` lines
110-112): it calls `channel.unsubscribe()` only.  The source contains no
`clearTimeout`, so the pending fallback timers survive teardown. -/
def unmountCleanup (rt : Runtime) : Runtime := { rt with subscribed := false }

/-- Delivering a realtime insert notification: the handler runs only while
the channel subscription is active. -/
def deliverInsertNotif (u : String) (payload : Bookmark) (rt : Runtime) : Runtime :=
  if rt.subscribed then { rt with dash := realtimeInsertHandler u payload rt.dash }
  else rt

/-- The oldest pending `setTimeout` callback fires; nothing gates it on the
component still being mounted or subscribed. -/
def fireOnePending (rt : Runtime) : Runtime :=
  match rt.pending with
  | [] => rt
  | t :: rest => { rt with dash := fireTimer rt.dash t, pending := rest }

def c8Record : Bookmark := ⟨"b1", "u1", "t", "https://a.example", 1⟩

/-- The runtime just after unmounting, with the insert fallback timer for
`c8Record` still pending (scheduled before the unmount). -/
def c8Unmounted : Runtime :=
  unmountCleanup { dash := [], subscribed := true,
                   pending := [PendingTimer.insertFb (some c8Record)] }

/-- C8 (refuting evaluation).  After teardown the notification feed is
indeed inert, but the fallback timer scheduled before unmount is still
pending and, when it fires, it mutates the bookmark state — the cleanup
never cancels the `setTimeout` fallbacks. -/
theorem c8_dangling_timer_mutates_after_unmount :
    deliverInsertNotif "u1" c8Record c8Unmounted = c8Unmounted
    ∧ c8Unmounted.pending = [PendingTimer.insertFb (some c8Record)]
    ∧ c8Unmounted.dash = []
    ∧ (fireOnePending c8Unmounted).dash = [c8Record] := by
  decide

/-! ### Trace semantics for claim C2

A session is a finite sequence of atomic events: store-side create/delete
operations (assumed acknowledged), the fallback timers they schedule, and
the optional remote notifications they trigger.  The local list and the
store contents evolve by folding the events. -/

inductive Ev where
  | storeCreate (r : Bookmark)
  | storeDelete (i : String)
  | insFb (r : Bookmark)
  | insNotif (r : Bookmark)
  | delFb (i : String)
  | delNotif (i : String)
deriving Repr, DecidableEq

/-- Effect of one event on the local bookmark list of user `u`: the store
operations themselves do not touch local state; the fallbacks and
notifications run the handlers embedded above. -/
def applyLocal (u : String) (l : List Bookmark) : Ev → List Bookmark
  | .storeCreate _ => l
  | .storeDelete _ => l
  | .insFb r => insertFallbackUpdate (some r) l
  | .insNotif r => realtimeInsertHandler u r l
  | .delFb i => deleteFallbackUpdate i l
  | .delNotif i => realtimeDeleteHandler i l

def runLocal (u : String) (t : List Ev) (l : List Bookmark) : List Bookmark :=
  t.foldl (applyLocal u) l

/-- Effect of one event on the store contents. -/
def applyStore (st : List Bookmark) : Ev → List Bookmark
  | .storeCreate r => r :: st
  | .storeDelete i => st.filter (fun r => r.id != i)
  | _ => st

def runStore (t : List Ev) (st : List Bookmark) : List Bookmark :=
  t.foldl applyStore st

/-- All pending fallback timers have been processed: every store create is
eventually followed by its insert fallback, every store delete by its
delete fallback. -/
def completeFrom : List Ev → Bool
  | [] => true
  | .storeCreate r :: rest => rest.contains (.insFb r) && completeFrom rest
  | .storeDelete i :: rest => rest.contains (.delFb i) && completeFrom rest
  | _ :: rest => completeFrom rest

/-- Every delivered insert notification is for a record owned by `u`
(the subscription's `user_id=eq.u` filter). -/
def notifsOwnedBy (u : String) (t : List Ev) : Bool :=
  t.all (fun e => match e with | .insNotif r => r.user_id == u | _ => true)

def cexRecord : Bookmark := ⟨"x", "u1", "t", "https://x.example", 1⟩

/-- The refuting interleaving: `x` is created and then deleted in the
store; all fallbacks fire and both notifications are delivered, but the
insert notification is processed last — after the delete fallback and the
delete notification — so it reinserts `x` locally even though the store no
longer holds it. -/
def cexTrace : List Ev :=
  [Ev.storeCreate cexRecord, Ev.storeDelete "x", Ev.insFb cexRecord,
   Ev.delFb "x", Ev.delNotif "x", Ev.insNotif cexRecord]

/-- C2 (counterexample).  A complete trace with matching notifications for
identity `u1` after which the local list contains identifier `x` while the
store does not: the displayed identifier set differs from the store's. -/
theorem c2_counterexample_stale_reinsert :
    completeFrom cexTrace = true
    ∧ notifsOwnedBy "u1" cexTrace = true
    ∧ runStore cexTrace [] = []
    ∧ runLocal "u1" cexTrace [] = [cexRecord]
    ∧ memId (runLocal "u1" cexTrace []) "x" = true
    ∧ memId (runStore cexTrace []) "x" = false := by
  decide

/-! Projection of a trace onto a single identifier.  Every handler touches
the list only through identifiers, so membership of an identifier in the
final list is a fold over the events carrying that identifier. -/

def evId : Ev → String
  | .storeCreate r => r.id
  | .storeDelete i => i
  | .insFb r => r.id
  | .insNotif r => r.id
  | .delFb i => i
  | .delNotif i => i

def isLocalAdd : Ev → Bool
  | .insFb _ => true
  | .insNotif _ => true
  | _ => false

def isLocalRemove : Ev → Bool
  | .delFb _ => true
  | .delNotif _ => true
  | _ => false

def isStoreCreate : Ev → Bool
  | .storeCreate _ => true
  | _ => false

def isStoreDelete : Ev → Bool
  | .storeDelete _ => true
  | _ => false

/-- Membership evolution on the local side: an insert event forces
presence, a delete event forces absence, store events are skips. -/
def memStep (b : Bool) (e : Ev) : Bool :=
  if isLocalAdd e then true else if isLocalRemove e then false else b

def memAfter (t : List Ev) (b : Bool) : Bool := t.foldl memStep b

/-- Membership evolution on the store side. -/
def storeMemStep (b : Bool) (e : Ev) : Bool :=
  if isStoreCreate e then true else if isStoreDelete e then false else b

def storeMemAfter (t : List Ev) (b : Bool) : Bool := t.foldl storeMemStep b

theorem memId_cons (r : Bookmark) (l : List Bookmark) (i : String) :
    memId (r :: l) i = ((r.id == i) || memId l i) := by
  simp [memId]

theorem memId_filter_self (i : String) (l : List Bookmark) :
    memId (l.filter (fun b => b.id != i)) i = false := by
  rw [memId]
  by_cases h : (l.filter (fun b => b.id != i)).any (fun b => b.id == i) = true
  · exfalso
    rcases List.any_eq_true.mp h with ⟨b, hb, hbi⟩
    have h2 := (List.mem_filter.mp hb).2
    rw [bne, hbi] at h2
    exact absurd h2 (by decide)
  · exact Bool.eq_false_iff.mpr h

theorem memId_filter_ne {j i : String} (h : j ≠ i) (l : List Bookmark) :
    memId (l.filter (fun b => b.id != j)) i = memId l i := by
  induction l with
  | nil => rfl
  | cons b rest ih =>
    by_cases hb : b.id = j
    · have hbi : (b.id == i) = false := beq_eq_false_iff_ne.mpr (hb ▸ h)
      have hpb : (b.id != j) = false := by simp [bne, hb]
      rw [List.filter_cons, hpb]
      simp only [Bool.false_eq_true, if_false]
      rw [ih, memId_cons, hbi, Bool.false_or]
    · have hpb : (b.id != j) = true := by simp [bne, hb]
      rw [List.filter_cons, hpb]
      simp only [if_true]
      rw [memId_cons, memId_cons, ih]

/-- The conditional prepend shared by the insert fallback and the insert
notification updater: its effect on identifier membership. -/
theorem memId_condPrepend (r : Bookmark) (l : List Bookmark) (i : String) :
    memId (if l.any (fun b => b.id == r.id) then l else r :: l) i
      = (if r.id = i then true else memId l i) := by
  by_cases hc : l.any (fun b => b.id == r.id) = true
  · rw [if_pos hc]
    by_cases hid : r.id = i
    · rw [if_pos hid]
      have : memId l r.id = true := hc
      rw [← hid]
      exact this
    · rw [if_neg hid]
  · simp only [hc, Bool.false_eq_true, if_false]
    by_cases hid : r.id = i
    · rw [if_pos hid, memId_cons, beq_iff_eq.mpr hid, Bool.true_or]
    · rw [if_neg hid, memId_cons, beq_eq_false_iff_ne.mpr hid, Bool.false_or]

/-- Per-event membership lemma: for events owned by `u`, the effect on
membership of identifier `i` is `memStep` when the event carries `i`, and
nothing otherwise. -/
theorem memId_applyLocal (u i : String) (l : List Bookmark) (e : Ev)
    (hins : ∀ r, e = Ev.insNotif r → r.user_id = u) :
    memId (applyLocal u l e) i
      = (if evId e = i then memStep (memId l i) e else memId l i) := by
  cases e with
  | storeCreate r => simp [applyLocal, memStep, isLocalAdd, isLocalRemove]
  | storeDelete j => simp [applyLocal, memStep, isLocalAdd, isLocalRemove]
  | insFb r =>
    have : applyLocal u l (Ev.insFb r)
        = (if l.any (fun b => b.id == r.id) then l else r :: l) := rfl
    rw [this, memId_condPrepend]
    simp [evId, memStep, isLocalAdd]
  | insNotif r =>
    have hu : (r.user_id == u) = true := beq_iff_eq.mpr (hins r rfl)
    have : applyLocal u l (Ev.insNotif r)
        = (if l.any (fun b => b.id == r.id) then l else r :: l) := by
      simp [applyLocal, realtimeInsertHandler, hu, realtimeInsertUpdate]
    rw [this, memId_condPrepend]
    simp [evId, memStep, isLocalAdd]
  | delFb j =>
    rw [show applyLocal u l (Ev.delFb j) = deleteFallbackUpdate j l from rfl,
      deleteFallbackUpdate_eq_filter]
    by_cases hj : j = i
    · subst hj
      rw [memId_filter_self]
      simp [evId, memStep, isLocalAdd, isLocalRemove]
    · rw [memId_filter_ne hj]
      simp [evId, hj]
  | delNotif j =>
    rw [show applyLocal u l (Ev.delNotif j) = l.filter (fun b => b.id != j) from rfl]
    by_cases hj : j = i
    · subst hj
      rw [memId_filter_self]
      simp [evId, memStep, isLocalAdd, isLocalRemove]
    · rw [memId_filter_ne hj]
      simp [evId, hj]

/-- Membership of `i` after running a trace locally is the membership fold
over the events carrying `i`. -/
theorem memId_runLocal (u i : String) (t : List Ev) (l : List Bookmark)
    (hins : ∀ r, Ev.insNotif r ∈ t → r.user_id = u) :
    memId (runLocal u t l) i
      = memAfter (t.filter (fun e => evId e == i)) (memId l i) := by
  induction t generalizing l with
  | nil => rfl
  | cons e rest ih =>
    have he : ∀ r, e = Ev.insNotif r → r.user_id = u :=
      fun r hr => hins r (hr ▸ List.mem_cons_self e rest)
    have hrest : ∀ r, Ev.insNotif r ∈ rest → r.user_id = u :=
      fun r hr => hins r (List.mem_cons_of_mem e hr)
    have hstep : runLocal u (e :: rest) l = runLocal u rest (applyLocal u l e) := rfl
    rw [hstep, ih (applyLocal u l e) hrest, memId_applyLocal u i l e he]
    by_cases hid : evId e = i
    · have hfe : (e :: rest).filter (fun e => evId e == i)
          = e :: rest.filter (fun e => evId e == i) := by
        rw [List.filter_cons, if_pos (beq_iff_eq.mpr hid)]
      rw [hfe, if_pos hid]
      rfl
    · have hfe : (e :: rest).filter (fun e => evId e == i)
          = rest.filter (fun e => evId e == i) := by
        rw [List.filter_cons]
        simp [beq_eq_false_iff_ne.mpr hid]
      rw [hfe, if_neg hid]

theorem memId_applyStore (i : String) (st : List Bookmark) (e : Ev) :
    memId (applyStore st e) i
      = (if evId e = i then storeMemStep (memId st i) e else memId st i) := by
  cases e with
  | storeCreate r =>
    rw [show applyStore st (Ev.storeCreate r) = r :: st from rfl, memId_cons]
    by_cases hid : r.id = i
    · rw [beq_iff_eq.mpr hid, Bool.true_or]
      simp [evId, hid, storeMemStep, isStoreCreate]
    · rw [beq_eq_false_iff_ne.mpr hid, Bool.false_or]
      simp [evId, hid]
  | storeDelete j =>
    rw [show applyStore st (Ev.storeDelete j) = st.filter (fun r => r.id != j) from rfl]
    by_cases hj : j = i
    · subst hj
      rw [memId_filter_self]
      simp [evId, storeMemStep, isStoreCreate, isStoreDelete]
    · rw [memId_filter_ne hj]
      simp [evId, hj]
  | insFb r => simp [applyStore, storeMemStep, isStoreCreate, isStoreDelete]
  | insNotif r => simp [applyStore, storeMemStep, isStoreCreate, isStoreDelete]
  | delFb j => simp [applyStore, storeMemStep, isStoreCreate, isStoreDelete]
  | delNotif j => simp [applyStore, storeMemStep, isStoreCreate, isStoreDelete]

theorem memId_runStore (i : String) (t : List Ev) (st : List Bookmark) :
    memId (runStore t st) i
      = storeMemAfter (t.filter (fun e => evId e == i)) (memId st i) := by
  induction t generalizing st with
  | nil => rfl
  | cons e rest ih =>
    have hstep : runStore (e :: rest) st = runStore rest (applyStore st e) := rfl
    rw [hstep, ih (applyStore st e), memId_applyStore i st e]
    by_cases hid : evId e = i
    · have hfe : (e :: rest).filter (fun e => evId e == i)
          = e :: rest.filter (fun e => evId e == i) := by
        rw [List.filter_cons, if_pos (beq_iff_eq.mpr hid)]
      rw [hfe, if_pos hid]
      rfl
    · have hfe : (e :: rest).filter (fun e => evId e == i)
          = rest.filter (fun e => evId e == i) := by
        rw [List.filter_cons]
        simp [beq_eq_false_iff_ne.mpr hid]
      rw [hfe, if_neg hid]

def isLocalOp (e : Ev) : Bool := isLocalAdd e || isLocalRemove e

def isStoreOp (e : Ev) : Bool := isStoreCreate e || isStoreDelete e

/-- The last element of an event list is a local removal. -/
def lastIsLocalRemove : List Ev → Bool
  | [] => false
  | [e] => isLocalRemove e
  | _ :: e2 :: rest => lastIsLocalRemove (e2 :: rest)

/-- The last element of an event list is a store delete. -/
def lastIsStoreDelete : List Ev → Bool
  | [] => false
  | [e] => isStoreDelete e
  | _ :: e2 :: rest => lastIsStoreDelete (e2 :: rest)

theorem memAfter_filter_localOps : ∀ (t : List Ev) (b : Bool),
    memAfter (t.filter isLocalOp) b = memAfter t b
  | [], _ => rfl
  | e :: rest, b => by
    by_cases he : isLocalOp e = true
    · rw [List.filter_cons, if_pos he]
      exact memAfter_filter_localOps rest (memStep b e)
    · have he' : isLocalOp e = false := Bool.eq_false_iff.mpr he
      have ha : isLocalAdd e = false := by
        cases hb : isLocalAdd e
        · rfl
        · rw [isLocalOp, hb, Bool.true_or] at he'
          exact absurd he' (by decide)
      have hr : isLocalRemove e = false := by
        cases hb : isLocalRemove e
        · rfl
        · rw [isLocalOp, hb, Bool.or_true] at he'
          exact absurd he' (by decide)
      have hskip : memStep b e = b := by simp [memStep, ha, hr]
      rw [List.filter_cons, if_neg he,
        show memAfter (e :: rest) b = memAfter rest (memStep b e) from rfl, hskip]
      exact memAfter_filter_localOps rest b

theorem storeMemAfter_filter_storeOps : ∀ (t : List Ev) (b : Bool),
    storeMemAfter (t.filter isStoreOp) b = storeMemAfter t b
  | [], _ => rfl
  | e :: rest, b => by
    by_cases he : isStoreOp e = true
    · rw [List.filter_cons, if_pos he]
      exact storeMemAfter_filter_storeOps rest (storeMemStep b e)
    · have he' : isStoreOp e = false := Bool.eq_false_iff.mpr he
      have ha : isStoreCreate e = false := by
        cases hb : isStoreCreate e
        · rfl
        · rw [isStoreOp, hb, Bool.true_or] at he'
          exact absurd he' (by decide)
      have hr : isStoreDelete e = false := by
        cases hb : isStoreDelete e
        · rfl
        · rw [isStoreOp, hb, Bool.or_true] at he'
          exact absurd he' (by decide)
      have hskip : storeMemStep b e = b := by simp [storeMemStep, ha, hr]
      rw [List.filter_cons, if_neg he,
        show storeMemAfter (e :: rest) b = storeMemAfter rest (storeMemStep b e) from rfl,
        hskip]
      exact storeMemAfter_filter_storeOps rest b

theorem memAfter_last_remove : ∀ (es : List Ev) (b : Bool),
    lastIsLocalRemove es = true → memAfter es b = false
  | [], _ => by intro h; exact absurd h (by decide)
  | [e], b => by
    intro h
    have he : isLocalRemove e = true := h
    have ha : isLocalAdd e = false := by
      cases e <;> first | rfl | exact Bool.noConfusion he
    show memStep b e = false
    simp [memStep, ha, he]
  | e :: e2 :: rest, b => by
    intro h
    exact memAfter_last_remove (e2 :: rest) (memStep b e) h

theorem storeMemAfter_last_delete : ∀ (es : List Ev) (b : Bool),
    lastIsStoreDelete es = true → storeMemAfter es b = false
  | [], _ => by intro h; exact absurd h (by decide)
  | [e], b => by
    intro h
    have he : isStoreDelete e = true := h
    have ha : isStoreCreate e = false := by
      cases e <;> first | rfl | exact Bool.noConfusion he
    show storeMemStep b e = false
    simp [storeMemStep, ha, he]
  | e :: e2 :: rest, b => by
    intro h
    exact storeMemAfter_last_delete (e2 :: rest) (storeMemStep b e) h

theorem memAfter_true_of_no_remove : ∀ (es : List Ev),
    es.any isLocalRemove = false → memAfter es true = true
  | [] => fun _ => rfl
  | e :: rest => by
    intro h
    rw [List.any_cons] at h
    obtain ⟨he, hrest⟩ := Bool.or_eq_false_iff.mp h
    have hstep : memStep true e = true := by simp [memStep, he]
    show memAfter rest (memStep true e) = true
    rw [hstep]
    exact memAfter_true_of_no_remove rest hrest

theorem memAfter_true_of_add : ∀ (es : List Ev) (b : Bool),
    es.any isLocalRemove = false → es.any isLocalAdd = true → memAfter es b = true
  | [], _ => by intro _ h; exact absurd h (by decide)
  | e :: rest, b => by
    intro hnr hadd
    rw [List.any_cons] at hnr
    obtain ⟨he, hrest⟩ := Bool.or_eq_false_iff.mp hnr
    by_cases ha : isLocalAdd e = true
    · have hstep : memStep b e = true := by simp [memStep, ha]
      show memAfter rest (memStep b e) = true
      rw [hstep]
      exact memAfter_true_of_no_remove rest hrest
    · have ha' : isLocalAdd e = false := Bool.eq_false_iff.mpr ha
      have hadd' : rest.any isLocalAdd = true := by
        rw [List.any_cons, ha', Bool.false_or] at hadd
        exact hadd
      exact memAfter_true_of_add rest (memStep b e) hrest hadd'

theorem memAfter_false_of_no_add : ∀ (es : List Ev),
    es.any isLocalAdd = false → memAfter es false = false
  | [] => fun _ => rfl
  | e :: rest => by
    intro h
    rw [List.any_cons] at h
    obtain ⟨he, hrest⟩ := Bool.or_eq_false_iff.mp h
    have hstep : memStep false e = false := by simp [memStep, he]
    show memAfter rest (memStep false e) = false
    rw [hstep]
    exact memAfter_false_of_no_add rest hrest

theorem storeMemAfter_true_of_no_delete : ∀ (es : List Ev),
    es.any isStoreDelete = false → storeMemAfter es true = true
  | [] => fun _ => rfl
  | e :: rest => by
    intro h
    rw [List.any_cons] at h
    obtain ⟨he, hrest⟩ := Bool.or_eq_false_iff.mp h
    have hstep : storeMemStep true e = true := by simp [storeMemStep, he]
    show storeMemAfter rest (storeMemStep true e) = true
    rw [hstep]
    exact storeMemAfter_true_of_no_delete rest hrest

theorem storeMemAfter_true_of_create : ∀ (es : List Ev) (b : Bool),
    es.any isStoreDelete = false → es.any isStoreCreate = true → storeMemAfter es b = true
  | [], _ => by intro _ h; exact absurd h (by decide)
  | e :: rest, b => by
    intro hnd hc
    rw [List.any_cons] at hnd
    obtain ⟨he, hrest⟩ := Bool.or_eq_false_iff.mp hnd
    by_cases ha : isStoreCreate e = true
    · have hstep : storeMemStep b e = true := by simp [storeMemStep, ha]
      show storeMemAfter rest (storeMemStep b e) = true
      rw [hstep]
      exact storeMemAfter_true_of_no_delete rest hrest
    · have ha' : isStoreCreate e = false := Bool.eq_false_iff.mpr ha
      have hc' : rest.any isStoreCreate = true := by
        rw [List.any_cons, ha', Bool.false_or] at hc
        exact hc
      exact storeMemAfter_true_of_create rest (storeMemStep b e) hrest hc'

theorem storeMemAfter_false_of_no_create : ∀ (es : List Ev),
    es.any isStoreCreate = false → storeMemAfter es false = false
  | [] => fun _ => rfl
  | e :: rest => by
    intro h
    rw [List.any_cons] at h
    obtain ⟨he, hrest⟩ := Bool.or_eq_false_iff.mp h
    have hstep : storeMemStep false e = false := by simp [storeMemStep, he]
    show storeMemAfter rest (storeMemStep false e) = false
    rw [hstep]
    exact storeMemAfter_false_of_no_create rest hrest

/-- Events of a trace carrying identifier `i`. -/
def evsFor (t : List Ev) (i : String) : List Ev := t.filter (fun e => evId e == i)

/-- Local insert/delete events of a trace carrying identifier `i`. -/
def localOpsOf (t : List Ev) (i : String) : List Ev := (evsFor t i).filter isLocalOp

/-- Store create/delete operations of a trace carrying identifier `i`. -/
def storeOpsOf (t : List Ev) (i : String) : List Ev := (evsFor t i).filter isStoreOp

/-- The per-identifier scheduling condition of the amended claim C2:
an identifier never created in the store has no local insert event; an
identifier created and never deleted has its insert fallback (or
notification) processed and no local delete event; an identifier whose
last store operation is a delete has a local removal processed last among
its local events — in particular its insert notification is not delivered
after its delete fallback and delete notification. -/
def PerIdConsistent (t : List Ev) (i : String) : Prop :=
  (storeOpsOf t i = [] ∧ (localOpsOf t i).any isLocalAdd = false)
  ∨ ((storeOpsOf t i).any isStoreDelete = false
      ∧ (storeOpsOf t i).any isStoreCreate = true
      ∧ (localOpsOf t i).any isLocalRemove = false
      ∧ (localOpsOf t i).any isLocalAdd = true)
  ∨ (lastIsStoreDelete (storeOpsOf t i) = true
      ∧ lastIsLocalRemove (localOpsOf t i) = true)

/-- C2 (amended).  For every trace of create/delete operations interleaved
with fallback timers and matching or missing notifications scoped to the
identity, if every identifier satisfies the per-identifier scheduling
condition `PerIdConsistent` — which the unrestricted claim lacks, as
`c2_counterexample_stale_reinsert` shows — then after the whole trace is
processed the identifier set displayed locally equals the identifier set
present in the store. -/
theorem c2_amended_eventual_consistency (u : String) (t : List Ev)
    (h1 : notifsOwnedBy u t = true) (h2 : ∀ i, PerIdConsistent t i) :
    ∀ i, memId (runLocal u t []) i = memId (runStore t []) i := by
  intro i
  have hins : ∀ r, Ev.insNotif r ∈ t → r.user_id = u := by
    intro r hr
    have := List.all_eq_true.mp h1 _ hr
    simpa using this
  rw [memId_runLocal u i t [] hins, memId_runStore i t []]
  rw [show memId ([] : List Bookmark) i = false from rfl]
  rw [← memAfter_filter_localOps, ← storeMemAfter_filter_storeOps]
  show memAfter (localOpsOf t i) false = storeMemAfter (storeOpsOf t i) false
  rcases h2 i with ⟨hse, hna⟩ | ⟨hnd, hsc, hnr, hla⟩ | ⟨hld, hlr⟩
  · rw [memAfter_false_of_no_add _ hna, hse]
    rfl
  · rw [memAfter_true_of_add _ false hnr hla,
      storeMemAfter_true_of_create _ false hnd hsc]
  · rw [memAfter_last_remove _ false hlr, storeMemAfter_last_delete _ false hld]

def wtRecord : Bookmark := ⟨"w", "u1", "t", "https://w.example", 1⟩

/-- A well-scheduled trace: create `w`, its notification and fallback, then
delete `w`, its notification and fallback, in order. -/
def wtTrace : List Ev :=
  [Ev.storeCreate wtRecord, Ev.insNotif wtRecord, Ev.insFb wtRecord,
   Ev.storeDelete "w", Ev.delNotif "w", Ev.delFb "w"]

/-- Witness for the amended C2 on the well-scheduled trace `wtTrace`. -/
theorem c2_amended_eventual_consistency_witness :
    memId (runLocal "u1" wtTrace []) "w" = memId (runStore wtTrace []) "w" :=
  c2_amended_eventual_consistency "u1" wtTrace (by decide)
    (fun i => by
      by_cases h : i = "w"
      · subst h
        right; right
        decide
      · left
        have hw : (("w" : String) == i) = false :=
          beq_eq_false_iff_ne.mpr (Ne.symm h)
        constructor
        · simp [storeOpsOf, evsFor, wtTrace, evId, wtRecord, hw]
        · simp [localOpsOf, evsFor, wtTrace, evId, wtRecord, hw])
    "w"

end SmartBookmark
